import Mathlib

/-!
Verification model of `cfn-checker.py`: a CodeBuild helper that resolves the
CloudFormation template paths referenced by a CodePipeline definition,
normalizes `packaged` paths, and runs three checking passes (cfn-lint,
CloudFormation validation, cfn_nag) over them.

Strings manipulated character-wise (Python `in`, `str.replace`, `str.split`)
are modelled on `List Char` by `leadsWith`, `occursIn`, `pyReplace` and
`pySplit`, mirroring CPython semantics for non-overlapping left-to-right
scanning.  Side effects (prints, log records, API calls, subprocess
invocations) are modelled as a trace of `Ev` events; external collaborators
(CodePipeline lookup, cfn-lint library, validate_template API, the cfn_nag
subprocess) are modelled as oracles bundled in `Env`.
-/

/-- Boolean test that `p` is a prefix of `s` (character lists). -/
def leadsWith : List Char → List Char → Bool
  | [], _ => true
  | _ :: _, [] => false
  | a :: as, b :: bs => if a = b then leadsWith as bs else false

/-- Boolean substring test, modelling the Python expression `p in s`. -/
def occursIn (p : List Char) : List Char → Bool
  | [] => p.isEmpty
  | c :: rest => leadsWith p (c :: rest) || occursIn p rest

/-- Model of Python `s.replace(old, new)`: replace every non-overlapping
occurrence of `old`, scanning left to right.  (For `old = ""` Python
interleaves `new` between characters; the source only calls this with
`old = "packaged"`.) -/
def pyReplace (old new : List Char) : List Char → List Char
  | [] => if old.isEmpty then new else []
  | c :: rest =>
    if old.isEmpty then new ++ c :: pyReplace old new rest
    else if leadsWith old (c :: rest) then new ++ pyReplace old new ((c :: rest).drop old.length)
    else c :: pyReplace old new rest
termination_by s => s.length
decreasing_by
  all_goals simp
  rename_i hne _
  have : 0 < old.length := by
    cases old with
    | nil => simp at hne
    | cons x xs => simp
  omega

/-- Model of Python `s.split(sep)` for a non-empty separator: cut at every
non-overlapping occurrence of `sep`, scanning left to right.  (Python raises
for `sep = ""`; here an empty separator never splits.  The source only calls
this with `sep = "::"`.) -/
def pySplit (sep : List Char) : List Char → List (List Char)
  | [] => [[]]
  | c :: rest =>
    if hs : sep ≠ [] ∧ leadsWith sep (c :: rest) = true then
      [] :: pySplit sep ((c :: rest).drop sep.length)
    else
      match pySplit sep rest with
      | [] => [[c]]
      | h :: t => (c :: h) :: t
termination_by s => s.length
decreasing_by
  all_goals simp
  have : 0 < sep.length := List.length_pos.mpr hs.1
  omega

/-- String-level wrapper for the Python substring test `p in s`. -/
def subOccurs (p s : String) : Bool := occursIn p.data s.data

/-- String-level wrapper for Python `s.replace(old, new)`. -/
def strReplace (s old new : String) : String := String.mk (pyReplace old.data new.data s.data)

/-- Model of `action["configuration"]["TemplatePath"].split("::")[1]`
(src line 51): `none` models the `IndexError` Python raises when the split
has no second element. -/
def extractTemplate (tp : String) : Option String :=
  (pySplit "::".data tp.data).get? 1 |>.map String.mk

/-- One pipeline action: `templatePath` is the `"TemplatePath"` entry of
`action["configuration"]` when present. -/
structure CpAction where
  templatePath : Option String
deriving DecidableEq

/-- One pipeline stage: its list of actions. -/
structure CpStage where
  actions : List CpAction
deriving DecidableEq

/-- A pipeline definition: `pipeline_definition["pipeline"]["stages"]`. -/
structure CpPipeline where
  stages : List CpStage
deriving DecidableEq

/-- Inner loop of the collection pass of `fetch_pipeline_definition`
(src lines 48-52): appends the extracted path of every action carrying a
`TemplatePath`; an extraction failure models the uncaught `IndexError`. -/
def collectActions : List CpAction → Except String (List String)
  | [] => .ok []
  | a :: rest =>
    match a.templatePath with
    | none => collectActions rest
    | some tp =>
      match extractTemplate tp with
      | none => .error "IndexError: list index out of range"
      | some rel => (collectActions rest).map (fun l => rel :: l)

/-- Outer loop of the collection pass of `fetch_pipeline_definition`
(src lines 47-52): walk the stages in order. -/
def collectStages : List CpStage → Except String (List String)
  | [] => .ok []
  | st :: rest => do
    let xs ← collectActions st.actions
    let ys ← collectStages rest
    .ok (xs ++ ys)

/-- The normalization loop of `fetch_pipeline_definition` (src lines 54-58),
modelling CPython `for template in templates:` list iteration by index `i`:
each step reads `templates[i]`; the body may call `templates.remove(template)`
(drop the first occurrence) and `templates.append(fixed_name)` while
iterating. -/
def normLoop (lst : List String) (i : Nat) : List String :=
  if h : i < lst.length then
    let t := lst[i]
    if subOccurs "packaged" t then
      normLoop (lst.erase t ++ [strReplace t "packaged" "template"]) (i + 1)
    else
      normLoop lst (i + 1)
  else lst
termination_by lst.length - i
decreasing_by
  · have ht : lst[i] ∈ lst := List.getElem_mem h
    have := List.length_erase_of_mem ht
    simp [this]
    omega
  · omega

/-- The normalization pass of `fetch_pipeline_definition` (src lines 54-58):
run `normLoop` from index 0. -/
def normalizeTemplates (lst : List String) : List String := normLoop lst 0

/-- Observable events of one run: console prints, logger records, and the
external calls made by the program (CodePipeline lookup at src line 39,
cfn-lint template processing at src lines 72-80, `validate_template` at src
line 101, and the cfn_nag subprocess at src line 138). -/
inductive Ev where
  | print (s : String)
  | logDebug (s : String)
  | logError (s : String)
  | traceback
  | getPipeline (name region : String)
  | lintRun (t : String)
  | validateCall (t : String)
  | scan (t : String)
deriving DecidableEq

/-- Final status of the process: `exit c` for a normal or `sys.exit` ending,
`fault e` for an uncaught Python exception. -/
inductive Outcome where
  | exit (code : Nat)
  | fault (e : String)
deriving DecidableEq

/-- Oracle for one cfn_nag subprocess invocation (src lines 138-144):
`clean` is a zero exit with captured output, `failed` a
`CalledProcessError` with its non-zero return code and captured output,
`raised` any other exception out of `subprocess.check_output`. -/
inductive NagRes where
  | clean (output : String)
  | failed (rc : Nat) (output : String)
  | raised (e : String)
deriving DecidableEq

/-- Oracle for one template in `cfn_validator`: the `open(template).read()`
call may raise (`readFail`), the `validate_template` API call may raise
(`apiFail`), or both succeed (`ok`). -/
inductive ValBeh where
  | readFail (e : String)
  | apiFail (e : String)
  | ok
deriving DecidableEq

/-- External world an execution runs against: the CodePipeline lookup result
(`none` models `PipelineNotFoundException`), and per-template behavior of the
cfn-lint library (`.ok` returns the printed rendering of `matches`,
`.error` an exception message), of `cfn_validator`, and of the cfn_nag
subprocess. -/
structure Env where
  lookup : Option CpPipeline
  lint : String → Except String String
  validate : String → ValBeh
  nag : String → NagRes

/-- Rendering of a Python value in an f-string where the value may be `None`
(used for `err` in `run_command`). -/
def pyShowOpt : Option String → String
  | none => "None"
  | some s => s

/-- Message of src line 84 / 105 / 121, shared by the three checkers. -/
def issueMsg (t e : String) : String :=
  "There is an issue with template " ++ t ++ ". The error is: " ++ e ++ " \n"

/-- Message of src line 85 / 106 / 122. -/
def tracebackHeader : String := "Traceback error logs are: \n"

/-- Message of src line 81. -/
def lintFoundMsg (t : String) : String := "Errors & Warnings found for " ++ t ++ ":"

/-- Message of src line 100. -/
def validatingMsg (t : String) : String :=
  "Validating stack \"" ++ t ++ "\". If no output, stack is valid.\" \n"

/-- Command string of src line 119. -/
def nagCmd (t : String) : String := "cfn_nag_scan -i " ++ t ++ " -o txt"

/-- Message of src line 134. -/
def execMsg (t : String) : String := "executing command: " ++ nagCmd t

/-- Message of src lines 142-143. -/
def cmdFailedMsg (rc : Nat) (out : String) : String :=
  "Command failed with exit code " ++ toString rc ++ ", stderr: " ++ out

/-- Message of src lines 147-148. -/
def nagIssuesLogMsg (t out : String) : String :=
  "The template \"" ++ t ++ "\" has the following issues: \n" ++ out

/-- Message of src lines 149-150. -/
def nagFailuresMsg (t out : String) : String :=
  "There are failure issues with template \"" ++ t ++
    "\". Look at the following output: \n" ++ out

/-- Message of src lines 153-154; `err` is `None` or the captured output. -/
def nagNoFailuresMsg (t : String) (err : Option String) : String :=
  "There are no failures with template \"" ++ t ++
    "\". Check for any warnings in output if present: " ++ pyShowOpt err ++ " \n"

/-- Message of src line 43. -/
def notFoundMsg (pipeline_name region : String) : String :=
  "Pipeline " ++ pipeline_name ++ " does not exist in region " ++ region

/-- The uncaught fault of src line 47 when the `except` branch of src lines
42-43 ran: `pipeline_definition` was never assigned. -/
def unboundErr : String :=
  "UnboundLocalError: local variable pipeline_definition referenced before assignment"

/-- The pass/fail marker inspected at src line 146. -/
def failuresZeroMarker : String := "Failures count: 0"

/-- Model of `fetch_pipeline_definition` (src lines 24-59): look the pipeline
up (printing and then faulting on `PipelineNotFoundException`), collect the
`TemplatePath` entries stage by stage, then run the normalization loop. -/
def fetch_pipeline_definition (lookup : Option CpPipeline) (pipeline_name region : String) :
    List Ev × Except String (List String) :=
  match lookup with
  | none =>
    ([Ev.getPipeline pipeline_name region, Ev.print (notFoundMsg pipeline_name region)],
      .error unboundErr)
  | some pl =>
    match collectStages pl.stages with
    | .error e => ([Ev.getPipeline pipeline_name region], .error e)
    | .ok ts => ([Ev.getPipeline pipeline_name region], .ok (normalizeTemplates ts))

/-- Model of `cfn_lint_checker` (src lines 63-86): the `try` wraps the whole
loop, so the first exception prints the issue messages and a traceback and
abandons the remaining templates. -/
def cfn_lint_checker (beh : String → Except String String) :
    List String → String → List Ev
  | [], _ => []
  | t :: rest, region =>
    match beh t with
    | .ok m =>
      Ev.lintRun t :: Ev.print (lintFoundMsg t) :: Ev.print m ::
        cfn_lint_checker beh rest region
    | .error e =>
      [Ev.lintRun t, Ev.print (issueMsg t e), Ev.print tracebackHeader, Ev.traceback]

/-- Model of `cfn_validator` (src lines 90-107): read the file, print the
progress line, call the validation API; the `try` wraps the whole loop, so
the first exception prints the issue messages and abandons the rest. -/
def cfn_validator (beh : String → ValBeh) : List String → List Ev
  | [] => []
  | t :: rest =>
    match beh t with
    | .readFail e =>
      [Ev.print (issueMsg t e), Ev.print tracebackHeader, Ev.traceback]
    | .apiFail e =>
      [Ev.print (validatingMsg t), Ev.validateCall t, Ev.print (issueMsg t e),
        Ev.print tracebackHeader, Ev.traceback]
    | .ok =>
      Ev.print (validatingMsg t) :: Ev.validateCall t :: cfn_validator beh rest

/-- Result of one `run_command` call: events plus whether control returned
normally, the process exited via `sys.exit(1)` (src line 151), or an
exception other than `CalledProcessError` escaped. -/
inductive CmdOut where
  | normal (evs : List Ev)
  | exitOne (evs : List Ev)
  | thrown (evs : List Ev) (e : String)
deriving DecidableEq

/-- Model of `run_command` (src lines 126-154).  `err` is `None` after a
clean subprocess exit and the captured output after a `CalledProcessError`;
the `if err:` test at src line 145 is Python truthiness, so an empty captured
output also takes the `else` branch. -/
def run_command (res : NagRes) (t : String) : CmdOut :=
  let pre := [Ev.logDebug (execMsg t), Ev.scan t]
  match res with
  | NagRes.clean out =>
    CmdOut.normal (pre ++ [Ev.logDebug out, Ev.print (nagNoFailuresMsg t none)])
  | NagRes.raised e => CmdOut.thrown pre e
  | NagRes.failed rc out =>
    let pre2 := pre ++ [Ev.logDebug (cmdFailedMsg rc out)]
    if out ≠ "" then
      if subOccurs failuresZeroMarker out then CmdOut.normal pre2
      else
        CmdOut.exitOne (pre2 ++
          [Ev.logError (nagIssuesLogMsg t out), Ev.print (nagFailuresMsg t out)])
    else CmdOut.normal (pre2 ++ [Ev.print (nagNoFailuresMsg t (some out))])

/-- Model of `cfn_nag_checker` (src lines 111-123): run `run_command` per
template; `sys.exit(1)` (a `SystemExit`, not an `Exception`) escapes the
`except Exception` clause and ends the process, while any other exception is
caught at loop level, printing the issue messages and abandoning the rest.
The boolean records whether the process exited with code 1. -/
def cfn_nag_checker (beh : String → NagRes) : List String → List Ev × Bool
  | [] => ([], false)
  | t :: rest =>
    match run_command (beh t) t with
    | CmdOut.normal evs =>
      let r := cfn_nag_checker beh rest
      (evs ++ r.1, r.2)
    | CmdOut.exitOne evs => (evs, true)
    | CmdOut.thrown evs e =>
      (evs ++ [Ev.print (issueMsg t e), Ev.print tracebackHeader, Ev.traceback], false)

/-- Banner of src line 167. -/
def listHeader : String := "\nList of templates to check:"

/-- Banner of src line 172. -/
def lintBanner : String := "\n---Running cfn-lint---"

/-- Banner of src line 175. -/
def valBanner : String := "\n---Running cfn validator---"

/-- Banner of src line 178. -/
def nagBanner : String := "\n---Running cfn_nag---"

/-- Model of `launch` (src lines 158-179): print the list header, resolve and
normalize, print each template, then run the three checking stages behind
their banners.  A fault out of `fetch_pipeline_definition` propagates; only
`cfn_nag_checker` can turn the exit code to 1. -/
def launch (E : Env) (pipeline_name region : String) : List Ev × Outcome :=
  let fr := fetch_pipeline_definition E.lookup pipeline_name region
  let evs0 := Ev.print listHeader :: fr.1
  match fr.2 with
  | .error e => (evs0, Outcome.fault e)
  | .ok templates =>
    let nag := cfn_nag_checker E.nag templates
    (evs0 ++ templates.map Ev.print ++
      Ev.print lintBanner :: cfn_lint_checker E.lint templates region ++
      Ev.print valBanner :: cfn_validator E.validate templates ++
      Ev.print nagBanner :: nag.1,
      if nag.2 then Outcome.exit 1 else Outcome.exit 0)

/-- Python truthiness of an argparse result: absent (`None`) and the empty
string are falsy. -/
def pyTruthy : Option String → Bool
  | none => false
  | some s => s ≠ ""

/-- Model of the `__main__` block (src lines 183-191): `launch` runs only
when both flags are truthy; otherwise the script falls off the end and the
process exits 0 having done nothing. -/
def mainEntry (E : Env) (pipelineArg regionArg : Option String) : List Ev × Outcome :=
  if pyTruthy pipelineArg && pyTruthy regionArg then
    launch E (pipelineArg.getD "") (regionArg.getD "")
  else ([], Outcome.exit 0)

/-! ## Character-list lemmas: prefixes and occurrences -/

/-- Characters of the `"packaged"` marker. -/
def pkgC : List Char := "packaged".data

/-- Characters of the `"template"` replacement. -/
def tplC : List Char := "template".data

theorem leadsWith_iff (p : List Char) : ∀ s, leadsWith p s = true ↔ ∃ t, s = p ++ t := by
  induction p with
  | nil => intro s; simp [leadsWith]
  | cons a as ih =>
    intro s
    cases s with
    | nil => simp [leadsWith]
    | cons b bs =>
      by_cases hab : a = b
      · subst hab
        simp [leadsWith, ih bs]
      · simp only [leadsWith, if_neg hab, List.cons_append]
        constructor
        · intro h; cases h
        · rintro ⟨t, ht⟩
          injection ht with h1 _
          exact absurd h1.symm hab

theorem occursIn_iff (p : List Char) : ∀ s, occursIn p s = true ↔ ∃ a b, s = a ++ p ++ b := by
  intro s
  induction s with
  | nil =>
    simp only [occursIn, List.isEmpty_iff]
    constructor
    · intro h; exact ⟨[], [], by simp [h]⟩
    · rintro ⟨a, b, hab⟩
      have hlen := congrArg List.length hab
      simp at hlen
      exact List.length_eq_zero.mp (by omega)
  | cons c rest ih =>
    simp only [occursIn, Bool.or_eq_true, leadsWith_iff, ih]
    constructor
    · rintro (⟨t, ht⟩ | ⟨a, b, hab⟩)
      · exact ⟨[], t, by simp [ht]⟩
      · exact ⟨c :: a, b, by simp [hab]⟩
    · rintro ⟨a, b, hab⟩
      cases a with
      | nil => exact Or.inl ⟨b, by simpa using hab⟩
      | cons x a2 =>
        simp only [List.cons_append, List.append_assoc] at hab
        injection hab with _ h2
        exact Or.inr ⟨a2, b, by simpa using h2⟩

theorem occursIn_first (p : List Char) (hp : p ≠ []) :
    ∀ s, occursIn p s = true → ∃ a b, s = a ++ p ++ b ∧ occursIn p a = false := by
  intro s
  induction s with
  | nil =>
    intro h
    simp [occursIn, List.isEmpty_iff] at h
    exact absurd h hp
  | cons c rest ih =>
    intro h
    by_cases hl : leadsWith p (c :: rest) = true
    · obtain ⟨t, ht⟩ := (leadsWith_iff p _).mp hl
      refine ⟨[], t, by simp [ht], ?_⟩
      simp [occursIn, List.isEmpty_iff, hp]
    · have hr : occursIn p rest = true := by
        simp only [occursIn, Bool.or_eq_true] at h
        exact h.resolve_left hl
      obtain ⟨a, b, hab, hfree⟩ := ih hr
      refine ⟨c :: a, b, by simp [hab], ?_⟩
      have hlca : leadsWith p (c :: a) = false := by
        by_contra hx
        have hx2 : leadsWith p (c :: a) = true := by
          cases hval : leadsWith p (c :: a) with
          | false => exact absurd hval hx
          | true => rfl
        obtain ⟨t, ht⟩ := (leadsWith_iff p _).mp hx2
        have hsplit : c :: rest = (c :: a) ++ (p ++ b) := by simp [hab]
        rw [ht] at hsplit
        exact hl ((leadsWith_iff p _).mpr ⟨t ++ (p ++ b), by simpa using hsplit⟩)
      simp [occursIn, hlca, hfree]

theorem occursIn_append (p x y : List Char) (h : occursIn p (x ++ y) = true) :
    occursIn p x = true ∨ occursIn p y = true ∨
      ∃ k a b, 0 < k ∧ k < p.length ∧ x = a ++ p.take k ∧ y = p.drop k ++ b := by
  obtain ⟨a, b, hab⟩ := (occursIn_iff p _).mp h
  by_cases h1 : a.length + p.length ≤ x.length
  · left
    have htake := congrArg (List.take (a.length + p.length)) hab
    rw [List.take_append_eq_append_take, List.take_append_eq_append_take] at htake
    have hax : x.take (a.length + p.length) = a ++ p := by
      have h3 : (a.length + p.length) - x.length = 0 := by omega
      have h4 : (a ++ p).take (a.length + p.length) = a ++ p :=
        List.take_of_length_le (by simp)
      have h5 : (a.length + p.length) - (a ++ p).length = 0 := by simp
      simpa [h3, h4, h5] using htake
    refine (occursIn_iff p x).mpr ⟨a, x.drop (a.length + p.length), ?_⟩
    calc x = x.take (a.length + p.length) ++ x.drop (a.length + p.length) :=
          (List.take_append_drop _ _).symm
      _ = a ++ p ++ x.drop (a.length + p.length) := by rw [hax]
  · by_cases h2 : x.length ≤ a.length
    · right; left
      have hdrop := congrArg (List.drop x.length) hab
      rw [List.drop_left, List.drop_append_eq_append_drop, List.drop_append_eq_append_drop]
        at hdrop
      refine (occursIn_iff p y).mpr ⟨a.drop x.length, b, ?_⟩
      have h4 : x.length - a.length = 0 := by omega
      have h5 : x.length - (a.length + p.length) = 0 := by omega
      simpa [h4, h5] using hdrop
    · right; right
      have hka : a.length < x.length := by omega
      have hkb : x.length < a.length + p.length := by omega
      refine ⟨x.length - a.length, a, b.drop (x.length - (a.length + p.length)), by omega,
        by omega, ?_, ?_⟩
      · have htake := congrArg (List.take x.length) hab
        rw [List.take_left, List.take_append_eq_append_take, List.take_append_eq_append_take]
          at htake
        have h4 : a.take x.length = a := List.take_of_length_le (by omega)
        have h5 : x.length - (a.length + p.length) = 0 := by omega
        simpa [h4, h5] using htake
      · have hdrop := congrArg (List.drop x.length) hab
        rw [List.drop_left, List.drop_append_eq_append_drop, List.drop_append_eq_append_drop]
          at hdrop
        have h4 : a.drop x.length = [] := List.drop_eq_nil_of_le (by omega)
        simpa [h4] using hdrop

/-! ## Facts about the `packaged` / `template` markers -/

theorem pkgC_ne_nil : pkgC ≠ [] := by decide

theorem pkgC_length : pkgC.length = 8 := by decide

theorem tplC_length : tplC.length = 8 := by decide

theorem occ_pkg_tpl_false : occursIn pkgC tplC = false := by decide

theorem pkg_no_border : ∀ k, k < 8 → 0 < k → pkgC.drop k ≠ pkgC.take (8 - k) := by decide

theorem tpl_drop_ne_pkg_take : ∀ k, k < 8 → 0 < k → tplC.drop (8 - k) ≠ pkgC.take k := by decide

theorem tpl_take_ne_pkg_drop : ∀ k, k < 8 → 0 < k → tplC.take (8 - k) ≠ pkgC.drop k := by decide

/-- If neither `A` nor `R` contains `"packaged"`, then `A ++ "template" ++ R`
does not either: no occurrence can overlap the inserted `"template"`. -/
theorem occ_pkg_free_append (A R : List Char) (hA : occursIn pkgC A = false)
    (hR : occursIn pkgC R = false) : occursIn pkgC (A ++ (tplC ++ R)) = false := by
  cases hocc : occursIn pkgC (A ++ (tplC ++ R)) with
  | false => rfl
  | true =>
    exfalso
    rcases occursIn_append _ _ _ hocc with h1 | h1 | ⟨k, a, b, hk0, hk8, hxa, hyb⟩
    · rw [h1] at hA; cases hA
    · rcases occursIn_append _ _ _ h1 with h2 | h2 | ⟨k, a, b, hk0, hk8, hxa, hyb⟩
      · exact absurd h2 (by decide)
      · rw [h2] at hR; cases hR
      · rw [pkgC_length] at hk8
        have hlen := congrArg List.length hxa
        rw [tplC_length] at hlen
        simp [List.length_take, pkgC_length] at hlen
        have hmin : min k 8 = k := by omega
        rw [hmin] at hlen
        have hdrop := congrArg (List.drop a.length) hxa
        rw [List.drop_left] at hdrop
        have hal : a.length = 8 - k := by omega
        rw [hal] at hdrop
        exact tpl_drop_ne_pkg_take k hk8 hk0 hdrop
    · rw [pkgC_length] at hk8
      have htake := congrArg (List.take (8 - k)) hyb
      rw [List.take_append_eq_append_take, List.take_append_eq_append_take] at htake
      have h4 : (8 - k) - tplC.length = 0 := by rw [tplC_length]; omega
      have h5 : (pkgC.drop k).take (8 - k) = pkgC.drop k :=
        List.take_of_length_le (by rw [List.length_drop, pkgC_length])
      have h6 : (8 - k) - (pkgC.drop k).length = 0 := by
        rw [List.length_drop, pkgC_length]
        omega
      rw [h4, h5, h6] at htake
      simp at htake
      exact tpl_take_ne_pkg_drop k hk8 hk0 htake

/-! ## Lemmas about `pyReplace` -/

theorem pyReplace_nil (old new : List Char) (hne : old ≠ []) :
    pyReplace old new [] = [] := by
  simp [pyReplace, hne]

theorem pyReplace_pos (old new s : List Char) (hne : old ≠ [])
    (hlead : leadsWith old s = true) :
    pyReplace old new s = new ++ pyReplace old new (s.drop old.length) := by
  cases s with
  | nil =>
    cases old with
    | nil => exact absurd rfl hne
    | cons a as => simp [leadsWith] at hlead
  | cons c rest =>
    simp [pyReplace, hne, hlead]

theorem pyReplace_neg (old new : List Char) (c : Char) (rest : List Char) (hne : old ≠ [])
    (hlead : leadsWith old (c :: rest) = false) :
    pyReplace old new (c :: rest) = c :: pyReplace old new rest := by
  simp [pyReplace, hne, hlead]

theorem pyReplace_of_no_occ (old new : List Char) (hne : old ≠ []) :
    ∀ s, occursIn old s = false → pyReplace old new s = s := by
  intro s
  induction s with
  | nil => intro _; exact pyReplace_nil old new hne
  | cons c rest ih =>
    intro h
    have hsplit : leadsWith old (c :: rest) = false ∧ occursIn old rest = false := by
      simpa [occursIn] using h
    rw [pyReplace_neg old new c rest hne hsplit.1, ih hsplit.2]

/-- A `"packaged"` occurrence cannot start inside a non-empty block `x` that
is free of it when the text continues with `"packaged"` itself: the marker
has no border (no proper prefix equal to a suffix). -/
theorem not_leads_pkg_of_free (x : List Char) (hx : x ≠ [])
    (hfree : occursIn pkgC x = false) (B : List Char) :
    leadsWith pkgC (x ++ (pkgC ++ B)) = false := by
  cases hval : leadsWith pkgC (x ++ (pkgC ++ B)) with
  | false => rfl
  | true =>
    exfalso
    obtain ⟨t, ht⟩ := (leadsWith_iff _ _).mp hval
    rcases List.append_eq_append_iff.mp ht with ⟨a2, hpk, hrest⟩ | ⟨c2, hx2, _⟩
    · by_cases ha2 : a2 = []
      · subst ha2
        simp only [List.append_nil] at hpk
        rw [← hpk] at hfree
        exact absurd hfree (by decide)
      · have hlpk := congrArg List.length hpk
        rw [pkgC_length] at hlpk
        simp at hlpk
        have ha2len : 0 < a2.length := List.length_pos.mpr ha2
        have hk8 : x.length < 8 := by omega
        have hk0 : 0 < x.length := List.length_pos.mpr hx
        have ha2drop : pkgC.drop x.length = a2 := by rw [hpk, List.drop_left]
        rw [← ha2drop] at hrest
        have htk := congrArg (List.take (8 - x.length)) hrest
        rw [List.take_append_eq_append_take, List.take_append_eq_append_take] at htk
        have e1 : (8 - x.length) - pkgC.length = 0 := by rw [pkgC_length]; omega
        have e2 : (pkgC.drop x.length).take (8 - x.length) = pkgC.drop x.length :=
          List.take_of_length_le (by rw [List.length_drop, pkgC_length])
        have e3 : (8 - x.length) - (pkgC.drop x.length).length = 0 := by
          rw [List.length_drop, pkgC_length]
          omega
        rw [e1, e2, e3] at htk
        simp at htk
        exact pkg_no_border x.length hk8 hk0 htk.symm
    · have hocc : occursIn pkgC x = true :=
        (occursIn_iff _ _).mpr ⟨[], c2, by simp [hx2]⟩
      rw [hocc] at hfree
      cases hfree

/-- Replacing at an occurrence of `"packaged"`: if `A` is occurrence-free, the
scan copies `A`, rewrites the `"packaged"` occurrence to `"template"`, and
continues on `B`. -/
theorem pyReplace_first (A B : List Char) (hA : occursIn pkgC A = false) :
    pyReplace pkgC tplC (A ++ pkgC ++ B) = A ++ tplC ++ pyReplace pkgC tplC B := by
  induction A with
  | nil =>
    simp only [List.nil_append]
    rw [pyReplace_pos pkgC tplC (pkgC ++ B) pkgC_ne_nil
      ((leadsWith_iff _ _).mpr ⟨B, rfl⟩), List.drop_left]
  | cons c A2 ih =>
    have hA2 : occursIn pkgC A2 = false := by
      have := (by simpa [occursIn] using hA :
        leadsWith pkgC (c :: A2) = false ∧ occursIn pkgC A2 = false)
      exact this.2
    have hlead : leadsWith pkgC (c :: (A2 ++ (pkgC ++ B))) = false := by
      have := not_leads_pkg_of_free (c :: A2) (by simp) hA B
      simpa using this
    have hstep := pyReplace_neg pkgC tplC c (A2 ++ (pkgC ++ B)) pkgC_ne_nil hlead
    calc pyReplace pkgC tplC (c :: A2 ++ pkgC ++ B)
        = pyReplace pkgC tplC (c :: (A2 ++ (pkgC ++ B))) := by simp
      _ = c :: pyReplace pkgC tplC (A2 ++ (pkgC ++ B)) := hstep
      _ = c :: pyReplace pkgC tplC (A2 ++ pkgC ++ B) := by rw [List.append_assoc]
      _ = c :: (A2 ++ tplC ++ pyReplace pkgC tplC B) := by rw [ih hA2]
      _ = c :: A2 ++ tplC ++ pyReplace pkgC tplC B := by simp

/-- The result of replacing `"packaged"` by `"template"` never contains
`"packaged"` again. -/
theorem pyReplace_result_free : ∀ s, occursIn pkgC (pyReplace pkgC tplC s) = false := by
  have main : ∀ n (s : List Char), s.length ≤ n →
      occursIn pkgC (pyReplace pkgC tplC s) = false := by
    intro n
    induction n with
    | zero =>
      intro s hs
      have hz : s = [] := List.length_eq_zero.mp (by omega)
      subst hz
      rw [pyReplace_nil pkgC tplC pkgC_ne_nil]
      decide
    | succ n ih =>
      intro s hs
      cases hocc : occursIn pkgC s with
      | false => rw [pyReplace_of_no_occ pkgC tplC pkgC_ne_nil s hocc]; exact hocc
      | true =>
        obtain ⟨a, b, hab, hfree⟩ := occursIn_first pkgC pkgC_ne_nil s hocc
        have hblen : b.length ≤ n := by
          have hlen := congrArg List.length hab
          simp [pkgC_length] at hlen
          omega
        subst hab
        rw [pyReplace_first a b hfree, List.append_assoc]
        exact occ_pkg_free_append a _ hfree (ih b hblen)
  intro s
  exact main s.length s le_rfl

/-- String-level form: the replacement appended by the normalization loop is
free of the `"packaged"` marker. -/
theorem strReplace_free (t : String) :
    subOccurs "packaged" (strReplace t "packaged" "template") = false :=
  pyReplace_result_free t.data

/-! ## Lemmas about `pySplit` and template-path extraction -/

/-- Characters of the `"::"` separator. -/
def sepC : List Char := "::".data

theorem pySplit_never_nil (sep : List Char) : ∀ s, pySplit sep s ≠ [] := by
  intro s
  induction s with
  | nil => simp [pySplit]
  | cons c rest ih =>
    by_cases hg : sep ≠ [] ∧ leadsWith sep (c :: rest) = true
    · simp [pySplit, hg]
    · cases he : pySplit sep rest with
      | nil => exact absurd he ih
      | cons h t => simp [pySplit, hg, he]

theorem pySplit_cons_of_not (sep : List Char) (c : Char) (rest h : List Char)
    (t : List (List Char)) (hg : ¬(sep ≠ [] ∧ leadsWith sep (c :: rest) = true))
    (he : pySplit sep rest = h :: t) :
    pySplit sep (c :: rest) = (c :: h) :: t := by
  simp [pySplit, hg, he]

theorem pySplit_cons_of_cut (sep : List Char) (c : Char) (rest : List Char)
    (hg : sep ≠ [] ∧ leadsWith sep (c :: rest) = true) :
    pySplit sep (c :: rest) = [] :: pySplit sep ((c :: rest).drop sep.length) := by
  simp [pySplit, hg]

theorem pySplit_of_no_occ (sep : List Char) : ∀ s, occursIn sep s = false →
    pySplit sep s = [s] := by
  intro s
  induction s with
  | nil => intro _; simp [pySplit]
  | cons c rest ih =>
    intro h
    have hsplit : leadsWith sep (c :: rest) = false ∧ occursIn sep rest = false := by
      simpa [occursIn] using h
    have hg : ¬(sep ≠ [] ∧ leadsWith sep (c :: rest) = true) := by
      rintro ⟨-, hl⟩
      rw [hsplit.1] at hl
      cases hl
    exact pySplit_cons_of_not sep c rest rest [] hg (ih hsplit.2)

/-- A `"::"` cut cannot start inside a block `x` when `x ++ ":"` is free of
`"::"` (the extra `":"` rules out a cut straddling the block boundary). -/
theorem not_leads_sep (c : Char) (A2 rest0 : List Char)
    (hA : occursIn sepC ((c :: A2) ++ [':']) = false) :
    leadsWith sepC (c :: (A2 ++ (sepC ++ rest0))) = false := by
  cases hval : leadsWith sepC (c :: (A2 ++ (sepC ++ rest0))) with
  | false => rfl
  | true =>
    exfalso
    obtain ⟨t, ht⟩ := (leadsWith_iff _ _).mp hval
    have ht2 : c :: (A2 ++ (sepC ++ rest0)) = ':' :: (':' :: t) := ht
    injection ht2 with hc htl
    cases A2 with
    | nil =>
      subst hc
      simp at hA
      exact absurd hA (by decide)
    | cons d A3 =>
      simp only [List.cons_append] at htl
      injection htl with hd _
      subst hc
      subst hd
      have hsepC : sepC = [':', ':'] := rfl
      simp [hsepC, occursIn, leadsWith] at hA

/-- Splitting `A ++ "::" ++ r` on `"::"` cuts exactly at the middle separator
first, provided no cut can occur in or at the end of `A`. -/
theorem pySplit_sep_concat (A r : List Char)
    (hA : occursIn sepC (A ++ [':']) = false) :
    pySplit sepC (A ++ (sepC ++ r)) = A :: pySplit sepC r := by
  induction A with
  | nil =>
    have harg : ([] : List Char) ++ (sepC ++ r) = ':' :: (':' :: r) := by simp [sepC]
    rw [harg]
    have hg : sepC ≠ [] ∧ leadsWith sepC (':' :: (':' :: r)) = true := by
      refine ⟨by decide, ?_⟩
      exact (leadsWith_iff _ _).mpr ⟨r, rfl⟩
    rw [pySplit_cons_of_cut sepC ':' (':' :: r) hg]
    simp [sepC]
  | cons c A2 ih =>
    have hA2 : occursIn sepC (A2 ++ [':']) = false := by
      have hx : occursIn sepC ((c :: A2) ++ [':']) = false := hA
      have : leadsWith sepC (c :: (A2 ++ [':'])) = false ∧
          occursIn sepC (A2 ++ [':']) = false := by
        simpa [occursIn] using hx
      exact this.2
    have hlead := not_leads_sep c A2 r hA
    have hg : ¬(sepC ≠ [] ∧ leadsWith sepC (c :: (A2 ++ (sepC ++ r))) = true) := by
      rintro ⟨-, hl⟩
      rw [hlead] at hl
      cases hl
    have harg : (c :: A2) ++ (sepC ++ r) = c :: (A2 ++ (sepC ++ r)) := by simp
    rw [harg]
    cases he : pySplit sepC r with
    | nil => exact absurd he (pySplit_never_nil sepC r)
    | cons hh tt =>
      have ihv := ih hA2
      rw [he] at ihv
      exact pySplit_cons_of_not sepC c (A2 ++ (sepC ++ r)) A2 (hh :: tt) hg ihv

theorem occursIn_tail_false {p : List Char} {c : Char} {rest : List Char}
    (h : occursIn p (c :: rest) = false) : occursIn p rest = false := by
  have : leadsWith p (c :: rest) = false ∧ occursIn p rest = false := by
    simpa [occursIn] using h
  exact this.2

/-- Spec-side reading of a template-path field: the substring after the first
`"::"` (empty when no separator occurs). -/
def afterSep : List Char → List Char
  | [] => []
  | c :: rest => if leadsWith sepC (c :: rest) then (c :: rest).drop 2 else afterSep rest

theorem afterSep_concat (A r : List Char) (hA : occursIn sepC (A ++ [':']) = false) :
    afterSep (A ++ (sepC ++ r)) = r := by
  induction A with
  | nil =>
    have harg : ([] : List Char) ++ (sepC ++ r) = ':' :: (':' :: r) := by simp [sepC]
    rw [harg]
    have hl : leadsWith sepC (':' :: (':' :: r)) = true := (leadsWith_iff _ _).mpr ⟨r, rfl⟩
    simp [afterSep, hl]
  | cons c A2 ih =>
    have hA2 : occursIn sepC (A2 ++ [':']) = false := occursIn_tail_false hA
    have hlead := not_leads_sep c A2 r hA
    have harg : (c :: A2) ++ (sepC ++ r) = c :: (A2 ++ (sepC ++ r)) := by simp
    rw [harg]
    simp [afterSep, hlead, ih hA2]

/-- Spec-side extraction at the `String` level. -/
def specRelPath (tp : String) : String := String.mk (afterSep tp.data)

/-- A template-path field of the shape `"<artifact-name>::<relative-path>"`:
a head block that cannot host or straddle a `"::"` cut, a `"::"`, and a
relative path free of `"::"`. -/
def wellFormedTP (tp : String) : Prop :=
  ∃ nm r : String, tp = nm ++ "::" ++ r ∧
    occursIn sepC (nm.data ++ [':']) = false ∧ occursIn sepC r.data = false

theorem extractTemplate_concat (nm r : String)
    (hnm : occursIn sepC (nm.data ++ [':']) = false)
    (hr : occursIn sepC r.data = false) :
    extractTemplate (nm ++ "::" ++ r) = some r := by
  have hdata : (nm ++ "::" ++ r).data = nm.data ++ (sepC ++ r.data) := by
    simp [sepC]
  simp only [extractTemplate, hdata]
  rw [show ([':', ':'] : List Char) = sepC from rfl,
    pySplit_sep_concat nm.data r.data hnm, pySplit_of_no_occ sepC r.data hr]
  rfl

theorem specRelPath_concat (nm r : String)
    (hnm : occursIn sepC (nm.data ++ [':']) = false) :
    specRelPath (nm ++ "::" ++ r) = r := by
  have hdata : (nm ++ "::" ++ r).data = nm.data ++ (sepC ++ r.data) := by
    simp [sepC]
  simp only [specRelPath, hdata]
  rw [afterSep_concat nm.data r.data hnm]

theorem extractTemplate_wf (tp : String) (h : wellFormedTP tp) :
    extractTemplate tp = some (specRelPath tp) := by
  obtain ⟨nm, r, rfl, h1, h2⟩ := h
  rw [extractTemplate_concat nm r h1 h2, specRelPath_concat nm r h1]

theorem collectActions_wf (acts : List CpAction)
    (h : ∀ a ∈ acts, ∀ tp, a.templatePath = some tp → wellFormedTP tp) :
    collectActions acts =
      .ok (acts.filterMap (fun a => a.templatePath.map specRelPath)) := by
  induction acts with
  | nil => rfl
  | cons a rest ih =>
    have hrest : ∀ a2 ∈ rest, ∀ tp, a2.templatePath = some tp → wellFormedTP tp :=
      fun a2 ha2 => h a2 (List.mem_cons_of_mem _ ha2)
    cases hat : a.templatePath with
    | none => simp [collectActions, hat, ih hrest]
    | some tp =>
      have hwf := h a (List.mem_cons_self _ _) tp hat
      simp [collectActions, hat, extractTemplate_wf tp hwf, ih hrest, Except.map]

theorem collectStages_wf (stages : List CpStage)
    (h : ∀ st ∈ stages, ∀ a ∈ st.actions, ∀ tp, a.templatePath = some tp → wellFormedTP tp) :
    collectStages stages =
      .ok (stages.flatMap
        (fun st => st.actions.filterMap (fun a => a.templatePath.map specRelPath))) := by
  induction stages with
  | nil => rfl
  | cons st rest ih =>
    have hst := h st (List.mem_cons_self _ _)
    have hrest : ∀ st2 ∈ rest, ∀ a ∈ st2.actions, ∀ tp,
        a.templatePath = some tp → wellFormedTP tp :=
      fun st2 hst2 => h st2 (List.mem_cons_of_mem _ hst2)
    simp [collectStages, collectActions_wf st.actions hst, ih hrest, Bind.bind, Except.bind]

/-! ## Lemmas about the normalization loop -/

theorem normLoop_eq (lst : List String) (i : Nat) :
    normLoop lst i =
      if h : i < lst.length then
        (if subOccurs "packaged" lst[i] then
          normLoop (lst.erase lst[i] ++ [strReplace lst[i] "packaged" "template"]) (i + 1)
        else normLoop lst (i + 1))
      else lst := by
  rw [normLoop]

theorem normLoop_stop (lst : List String) (i : Nat) (h : ¬ i < lst.length) :
    normLoop lst i = lst := by
  rw [normLoop_eq, dif_neg h]

theorem normLoop_step_mark (lst : List String) (i : Nat) (h : i < lst.length)
    (hm : subOccurs "packaged" lst[i] = true) :
    normLoop lst i =
      normLoop (lst.erase lst[i] ++ [strReplace lst[i] "packaged" "template"]) (i + 1) := by
  rw [normLoop_eq, dif_pos h, if_pos hm]

theorem normLoop_step_skip (lst : List String) (i : Nat) (h : i < lst.length)
    (hm : subOccurs "packaged" lst[i] = false) :
    normLoop lst i = normLoop lst (i + 1) := by
  rw [normLoop_eq, dif_pos h, if_neg (by rw [hm]; exact Bool.false_ne_true)]

theorem normLoop_clean (lst : List String) (i : Nat)
    (h : ∀ x ∈ lst.drop i, subOccurs "packaged" x = false) :
    normLoop lst i = lst := by
  by_cases hl : i < lst.length
  · have hdrop : lst.drop i = lst[i] :: lst.drop (i + 1) := List.drop_eq_getElem_cons hl
    have hmem : lst[i] ∈ lst.drop i := by rw [hdrop]; exact List.mem_cons_self _ _
    have hm := h lst[i] hmem
    rw [normLoop_step_skip lst i hl hm]
    exact normLoop_clean lst (i + 1) (fun x hx => h x (by rw [hdrop]; exact List.mem_cons_of_mem _ hx))
  · exact normLoop_stop lst i hl
termination_by lst.length - i


/-- Invariant proof for the normalization loop: if everything already walked
past is marker-free and at most one entry yet to walk carries the marker,
every entry of the final list is marker-free. -/
theorem normLoop_free (lst : List String) (i : Nat)
    (hpre : ∀ x ∈ lst.take i, subOccurs "packaged" x = false)
    (hcnt : (lst.drop i).countP (fun x => subOccurs "packaged" x) ≤ 1) :
    ∀ x ∈ normLoop lst i, subOccurs "packaged" x = false := by
  by_cases hl : i < lst.length
  · have hdrop : lst.drop i = lst[i] :: lst.drop (i + 1) := List.drop_eq_getElem_cons hl
    cases hm : subOccurs "packaged" lst[i] with
    | false =>
      rw [normLoop_step_skip lst i hl hm]
      refine normLoop_free lst (i + 1) ?_ ?_
      · intro x hx
        rw [List.take_succ, List.getElem?_eq_getElem hl] at hx
        rcases List.mem_append.mp hx with hx1 | hx1
        · exact hpre x hx1
        · simp at hx1
          rw [hx1]
          exact hm
      · rw [hdrop, List.countP_cons] at hcnt
        simp only [hm] at hcnt
        simp at hcnt
        exact hcnt
    | true =>
      have htnotin : lst[i] ∉ lst.take i := by
        intro hin
        rw [hpre lst[i] hin] at hm
        cases hm
      have hsplit : lst = lst.take i ++ lst[i] :: lst.drop (i + 1) := by
        rw [← hdrop, List.take_append_drop]
      have herase : lst.erase lst[i] = lst.take i ++ lst.drop (i + 1) := by
        calc lst.erase lst[i]
            = (lst.take i ++ lst[i] :: lst.drop (i + 1)).erase lst[i] := by rw [← hsplit]
          _ = lst.take i ++ (lst[i] :: lst.drop (i + 1)).erase lst[i] :=
              List.erase_append_right _ htnotin
          _ = lst.take i ++ lst.drop (i + 1) := by rw [List.erase_cons_head]
      have hfreedrop : ∀ x ∈ lst.drop (i + 1), subOccurs "packaged" x = false := by
        rw [hdrop, List.countP_cons] at hcnt
        simp [hm] at hcnt
        intro x hx
        simpa using hcnt x hx
      rw [normLoop_step_mark lst i hl hm, herase]
      set fixedv := strReplace lst[i] "packaged" "template" with hfix
      have hfixfree : subOccurs "packaged" fixedv = false := strReplace_free lst[i]
      have htaki : (lst.take i).length = i := by
        simp [List.length_take]
        omega
      have hlen2 : (lst.take i ++ lst.drop (i + 1) ++ [fixedv]).length = lst.length := by
        simp [htaki]
        omega
      refine normLoop_free (lst.take i ++ lst.drop (i + 1) ++ [fixedv]) (i + 1) ?_ ?_
      · intro x hx
        rw [List.append_assoc, List.take_append_eq_append_take, htaki] at hx
        have h1i : i + 1 - i = 1 := by omega
        have htk2 : (lst.take i).take (i + 1) = lst.take i :=
          List.take_of_length_le (by rw [htaki]; omega)
        rw [h1i, htk2] at hx
        rcases List.mem_append.mp hx with hx1 | hx1
        · exact hpre x hx1
        · have hx2 := List.take_subset _ _ hx1
          rcases List.mem_append.mp hx2 with hx3 | hx3
          · exact hfreedrop x hx3
          · simp at hx3
            rw [hx3]
            exact hfixfree
      · refine le_trans (le_of_eq (List.countP_eq_zero.mpr ?_)) (by omega)
        intro x hx
        have hx2 : x ∈ lst.take i ++ lst.drop (i + 1) ++ [fixedv] :=
          List.drop_subset _ _ hx
        simp only [List.append_assoc, List.mem_append] at hx2
        rcases hx2 with hx3 | hx3 | hx3
        · simp [hpre x hx3]
        · simp [hfreedrop x hx3]
        · simp at hx3
          rw [hx3]
          simp [hfixfree]
  · rw [normLoop_stop lst i hl]
    intro x hx
    have hde : lst.drop i = [] := List.drop_eq_nil_of_le (by omega)
    have hx2 : x ∈ lst.take i := by
      have hta := List.take_append_drop i lst
      rw [← hta] at hx
      rcases List.mem_append.mp hx with h1 | h1
      · exact h1
      · rw [hde] at h1
        cases h1
    exact hpre x hx2
termination_by lst.length - i
decreasing_by
  · omega
  · rw [hlen2]
    omega

/-! ## Trace lemmas for the three checking stages -/

/-- Whether a cfn_nag subprocess result lets `cfn_nag_checker` move on to the
next template: a clean exit, or a `CalledProcessError` whose captured output
is empty (falsy) or contains the zero-failures marker.  A `raised` oracle
stops the loop (caught at loop level) and an uncaught marker-free failure
exits the process. -/
def nagContinues : NagRes → Bool
  | NagRes.clean _ => true
  | NagRes.failed _ out => decide (out = "") || subOccurs failuresZeroMarker out
  | NagRes.raised _ => false

/-- Classifier: the event is a cfn_nag subprocess invocation. -/
def isScanEv : Ev → Bool
  | Ev.scan _ => true
  | _ => false

/-- Classifier: the event is a `validate_template` API call. -/
def isValidateEv : Ev → Bool
  | Ev.validateCall _ => true
  | _ => false

/-- Classifier: the event is a cfn-lint processing of one template. -/
def isLintEv : Ev → Bool
  | Ev.lintRun _ => true
  | _ => false

theorem lint_events_only (beh : String → Except String String) :
    ∀ (ts : List String) (region : String), ∀ e ∈ cfn_lint_checker beh ts region,
      isValidateEv e = false ∧ isScanEv e = false := by
  intro ts
  induction ts with
  | nil => intro region e he; cases he
  | cons t rest ih =>
    intro region e he
    cases hb : beh t with
    | ok m =>
      rw [cfn_lint_checker, hb] at he
      rcases List.mem_cons.mp he with rfl | he
      · exact ⟨rfl, rfl⟩
      rcases List.mem_cons.mp he with rfl | he
      · exact ⟨rfl, rfl⟩
      rcases List.mem_cons.mp he with rfl | he
      · exact ⟨rfl, rfl⟩
      exact ih region e he
    | error ex =>
      rw [cfn_lint_checker, hb] at he
      fin_cases he <;> exact ⟨rfl, rfl⟩

theorem validator_events_only (beh : String → ValBeh) :
    ∀ (ts : List String), ∀ e ∈ cfn_validator beh ts,
      isLintEv e = false ∧ isScanEv e = false := by
  intro ts
  induction ts with
  | nil => intro e he; cases he
  | cons t rest ih =>
    intro e he
    cases hb : beh t with
    | readFail ex =>
      rw [cfn_validator, hb] at he
      fin_cases he <;> exact ⟨rfl, rfl⟩
    | apiFail ex =>
      rw [cfn_validator, hb] at he
      fin_cases he <;> exact ⟨rfl, rfl⟩
    | ok =>
      rw [cfn_validator, hb] at he
      rcases List.mem_cons.mp he with rfl | he
      · exact ⟨rfl, rfl⟩
      rcases List.mem_cons.mp he with rfl | he
      · exact ⟨rfl, rfl⟩
      exact ih e he

theorem run_command_events_only (r : NagRes) (t : String) :
    ∀ e, (∀ evs, run_command r t = CmdOut.normal evs → e ∈ evs → isLintEv e = false ∧ isValidateEv e = false) ∧
      (∀ evs, run_command r t = CmdOut.exitOne evs → e ∈ evs → isLintEv e = false ∧ isValidateEv e = false) ∧
      (∀ evs ex, run_command r t = CmdOut.thrown evs ex → e ∈ evs → isLintEv e = false ∧ isValidateEv e = false) := by
  intro e
  cases r with
  | clean out =>
    refine ⟨?_, ?_, ?_⟩ <;> intro evs
    · intro h he
      rw [run_command] at h
      injection h with h2
      rw [← h2] at he
      fin_cases he <;> exact ⟨rfl, rfl⟩
    · intro h; rw [run_command] at h; cases h
    · intro ex h; rw [run_command] at h; cases h
  | raised ex0 =>
    refine ⟨?_, ?_, ?_⟩ <;> intro evs
    · intro h; rw [run_command] at h; cases h
    · intro h; rw [run_command] at h; cases h
    · intro ex h he
      rw [run_command] at h
      injection h with h2 _
      rw [← h2] at he
      fin_cases he <;> exact ⟨rfl, rfl⟩
  | failed rc out =>
    by_cases hne : out = ""
    · subst hne
      refine ⟨?_, ?_, ?_⟩ <;> intro evs
      · intro h he
        rw [run_command] at h
        simp only [ne_eq, not_true_eq_false, if_neg, ite_false] at h
        injection h with h2
        rw [← h2] at he
        fin_cases he <;> exact ⟨rfl, rfl⟩
      · intro h
        rw [run_command] at h
        simp only [ne_eq, not_true_eq_false, if_neg, ite_false] at h
        cases h
      · intro ex h
        rw [run_command] at h
        simp only [ne_eq, not_true_eq_false, if_neg, ite_false] at h
        cases h
    · cases hmk : subOccurs failuresZeroMarker out with
      | true =>
        refine ⟨?_, ?_, ?_⟩ <;> intro evs
        · intro h he
          rw [run_command] at h
          simp only [hne, hmk, ne_eq, not_false_eq_true, if_true, ite_true] at h
          injection h with h2
          rw [← h2] at he
          fin_cases he <;> exact ⟨rfl, rfl⟩
        · intro h
          rw [run_command] at h
          simp only [hne, hmk, ne_eq, not_false_eq_true, if_true, ite_true] at h
          cases h
        · intro ex h
          rw [run_command] at h
          simp only [hne, hmk, ne_eq, not_false_eq_true, if_true, ite_true] at h
          cases h
      | false =>
        refine ⟨?_, ?_, ?_⟩ <;> intro evs
        · intro h he
          rw [run_command] at h
          simp only [hne, hmk, ne_eq, not_false_eq_true, if_true, Bool.false_eq_true,
            ite_false] at h
          cases h
        · intro h he
          rw [run_command] at h
          simp only [hne, hmk, ne_eq, not_false_eq_true, if_true, Bool.false_eq_true,
            ite_false] at h
          injection h with h2
          rw [← h2] at he
          fin_cases he <;> exact ⟨rfl, rfl⟩
        · intro ex h
          rw [run_command] at h
          simp only [hne, hmk, ne_eq, not_false_eq_true, if_true, Bool.false_eq_true,
            ite_false] at h
          cases h

theorem run_command_continue (r : NagRes) (t : String) (hc : nagContinues r = true) :
    ∃ evs, run_command r t = CmdOut.normal evs ∧ evs.filter isScanEv = [Ev.scan t] := by
  cases r with
  | clean out =>
    refine ⟨_, rfl, ?_⟩
    simp [run_command, isScanEv, List.filter]
  | failed rc out =>
    by_cases hne : out = ""
    · subst hne
      refine ⟨[Ev.logDebug (execMsg t), Ev.scan t, Ev.logDebug (cmdFailedMsg rc ""),
        Ev.print (nagNoFailuresMsg t (some ""))], ?_, ?_⟩
      · rw [run_command]
        simp
      · simp [isScanEv, List.filter]
    · have hmk : subOccurs failuresZeroMarker out = true := by
        simp [nagContinues, hne] at hc
        exact hc
      refine ⟨[Ev.logDebug (execMsg t), Ev.scan t, Ev.logDebug (cmdFailedMsg rc out)], ?_, ?_⟩
      · rw [run_command]
        simp [hne, hmk]
      · simp [isScanEv, List.filter]
  | raised e => simp [nagContinues] at hc

theorem run_command_exit (rc : Nat) (out t : String) (hne : out ≠ "")
    (hmk : subOccurs failuresZeroMarker out = false) :
    run_command (NagRes.failed rc out) t =
      CmdOut.exitOne [Ev.logDebug (execMsg t), Ev.scan t, Ev.logDebug (cmdFailedMsg rc out),
        Ev.logError (nagIssuesLogMsg t out), Ev.print (nagFailuresMsg t out)] := by
  rw [run_command]
  simp [hne, hmk]

theorem run_command_marker_silent (rc : Nat) (out t : String)
    (hmk : subOccurs failuresZeroMarker out = true) :
    run_command (NagRes.failed rc out) t =
      CmdOut.normal [Ev.logDebug (execMsg t), Ev.scan t, Ev.logDebug (cmdFailedMsg rc out)] := by
  have hne : out ≠ "" := by
    intro h
    subst h
    exact absurd hmk (by decide)
  rw [run_command]
  simp [hne, hmk]

theorem cfn_nag_all_continue (beh : String → NagRes) :
    ∀ ts : List String, (∀ u ∈ ts, nagContinues (beh u) = true) →
      (cfn_nag_checker beh ts).2 = false ∧
        (cfn_nag_checker beh ts).1.filter isScanEv = ts.map Ev.scan := by
  intro ts
  induction ts with
  | nil => intro _; exact ⟨rfl, rfl⟩
  | cons t rest ih =>
    intro h
    obtain ⟨evs, heq, hfil⟩ := run_command_continue (beh t) t (h t (List.mem_cons_self _ _))
    have ihr := ih (fun u hu => h u (List.mem_cons_of_mem _ hu))
    rw [cfn_nag_checker, heq]
    constructor
    · exact ihr.1
    · rw [List.filter_append, hfil, ihr.2]
      simp

theorem cfn_nag_exit (beh : String → NagRes) (pre : List String) (t : String)
    (post : List String) (rc : Nat) (out : String)
    (hpre : ∀ u ∈ pre, nagContinues (beh u) = true)
    (hbt : beh t = NagRes.failed rc out) (hne : out ≠ "")
    (hmk : subOccurs failuresZeroMarker out = false) :
    (cfn_nag_checker beh (pre ++ t :: post)).2 = true ∧
      (cfn_nag_checker beh (pre ++ t :: post)).1.filter isScanEv = (pre ++ [t]).map Ev.scan ∧
      Ev.print (nagFailuresMsg t out) ∈ (cfn_nag_checker beh (pre ++ t :: post)).1 := by
  induction pre with
  | nil =>
    simp only [List.nil_append]
    rw [cfn_nag_checker, hbt, run_command_exit rc out t hne hmk]
    refine ⟨rfl, ?_, ?_⟩
    · simp [isScanEv, List.filter]
    · simp
  | cons u pre2 ih =>
    obtain ⟨evs, heq, hfil⟩ := run_command_continue (beh u) u (hpre u (List.mem_cons_self _ _))
    have ihr := ih (fun v hv => hpre v (List.mem_cons_of_mem _ hv))
    have harg : (u :: pre2) ++ t :: post = u :: (pre2 ++ t :: post) := by simp
    rw [harg, cfn_nag_checker, heq]
    refine ⟨ihr.1, ?_, ?_⟩
    · rw [List.filter_append, hfil, ihr.2.1]
      simp
    · exact List.mem_append_right _ ihr.2.2

theorem cfn_lint_ok_front (beh : String → Except String String) (mf : String → String) :
    ∀ (pre rest : List String) (region : String),
      (∀ u ∈ pre, beh u = .ok (mf u)) →
      cfn_lint_checker beh (pre ++ rest) region =
        pre.flatMap (fun u => [Ev.lintRun u, Ev.print (lintFoundMsg u), Ev.print (mf u)]) ++
          cfn_lint_checker beh rest region := by
  intro pre
  induction pre with
  | nil => intro rest region _; simp
  | cons u pre2 ih =>
    intro rest region h
    have hu := h u (List.mem_cons_self _ _)
    have harg : (u :: pre2) ++ rest = u :: (pre2 ++ rest) := by simp
    rw [harg, cfn_lint_checker, hu, ih rest region (fun v hv => h v (List.mem_cons_of_mem _ hv))]
    simp

theorem cfn_lint_error_stop (beh : String → Except String String) (t : String)
    (post : List String) (region : String) (e : String) (hb : beh t = .error e) :
    cfn_lint_checker beh (t :: post) region =
      [Ev.lintRun t, Ev.print (issueMsg t e), Ev.print tracebackHeader, Ev.traceback] := by
  rw [cfn_lint_checker, hb]

theorem cfn_validator_ok_front (beh : String → ValBeh) :
    ∀ (pre rest : List String),
      (∀ u ∈ pre, beh u = ValBeh.ok) →
      cfn_validator beh (pre ++ rest) =
        pre.flatMap (fun u => [Ev.print (validatingMsg u), Ev.validateCall u]) ++
          cfn_validator beh rest := by
  intro pre
  induction pre with
  | nil => intro rest _; simp
  | cons u pre2 ih =>
    intro rest h
    have hu := h u (List.mem_cons_self _ _)
    have harg : (u :: pre2) ++ rest = u :: (pre2 ++ rest) := by simp
    rw [harg, cfn_validator, hu, ih rest (fun v hv => h v (List.mem_cons_of_mem _ hv))]
    simp

theorem cfn_validator_read_stop (beh : String → ValBeh) (t : String) (post : List String)
    (e : String) (hb : beh t = ValBeh.readFail e) :
    cfn_validator beh (t :: post) =
      [Ev.print (issueMsg t e), Ev.print tracebackHeader, Ev.traceback] := by
  rw [cfn_validator, hb]

theorem cfn_validator_api_stop (beh : String → ValBeh) (t : String) (post : List String)
    (e : String) (hb : beh t = ValBeh.apiFail e) :
    cfn_validator beh (t :: post) =
      [Ev.print (validatingMsg t), Ev.validateCall t, Ev.print (issueMsg t e),
        Ev.print tracebackHeader, Ev.traceback] := by
  rw [cfn_validator, hb]

theorem launch_ok (E : Env) (p r : String) (pl : CpPipeline) (ts0 : List String)
    (hlk : E.lookup = some pl) (hcs : collectStages pl.stages = Except.ok ts0) :
    launch E p r =
      (Ev.print listHeader :: Ev.getPipeline p r ::
        ((normalizeTemplates ts0).map Ev.print ++
          Ev.print lintBanner :: cfn_lint_checker E.lint (normalizeTemplates ts0) r ++
          Ev.print valBanner :: cfn_validator E.validate (normalizeTemplates ts0) ++
          Ev.print nagBanner :: (cfn_nag_checker E.nag (normalizeTemplates ts0)).1),
        if (cfn_nag_checker E.nag (normalizeTemplates ts0)).2 then Outcome.exit 1
        else Outcome.exit 0) := by
  simp [launch, fetch_pipeline_definition, hlk, hcs]

theorem launch_fault (E : Env) (p r : String) (hlk : E.lookup = none) :
    launch E p r =
      ([Ev.print listHeader, Ev.getPipeline p r, Ev.print (notFoundMsg p r)],
        Outcome.fault unboundErr) := by
  simp [launch, fetch_pipeline_definition, hlk]

/-! ## Concrete evaluation helpers -/

theorem strReplace_eval (s out : String)
    (h : pyReplace pkgC tplC s.data = out.data) :
    strReplace s "packaged" "template" = out := by
  rw [strReplace, show ("packaged".data : List Char) = pkgC from rfl,
    show ("template".data : List Char) = tplC from rfl, h]

/-! ## Claims -/

/-- C9: the normalization substitution replaces every occurrence of
`"packaged"`: the replacement result never contains `"packaged"`, and the
scan rewrites each occurrence to `"template"` in turn. -/
theorem claim9_replace_all :
    (∀ s : String, subOccurs "packaged" (strReplace s "packaged" "template") = false) ∧
    (∀ A B : List Char, occursIn pkgC A = false →
      pyReplace pkgC tplC (A ++ pkgC ++ B) = A ++ tplC ++ pyReplace pkgC tplC B) :=
  ⟨strReplace_free, pyReplace_first⟩

theorem claim9_replace_all_witness :
    subOccurs "packaged" (strReplace "a-packaged-b-packaged.yaml" "packaged" "template")
        = false ∧
      occursIn pkgC "a-".data = false ∧
      pyReplace pkgC tplC ("a-".data ++ pkgC ++ "x-packaged".data) =
        "a-".data ++ tplC ++ pyReplace pkgC tplC "x-packaged".data :=
  ⟨claim9_replace_all.1 "a-packaged-b-packaged.yaml", by decide,
    claim9_replace_all.2 "a-".data "x-packaged".data (by decide)⟩

/-- C2 counterexample: with two packaged paths the mutate-while-iterating
loop leaves the second `"packaged"` path in place, so the claimed invariant
fails as stated. -/
theorem claim2_counterexample :
    normalizeTemplates ["a-packaged.yaml", "b-packaged.yaml"] =
      ["b-packaged.yaml", "a-template.yaml"] ∧
    "b-packaged.yaml" ∈ normalizeTemplates ["a-packaged.yaml", "b-packaged.yaml"] ∧
    subOccurs "packaged" "b-packaged.yaml" = true := by
  have hrep : strReplace "a-packaged.yaml" "packaged" "template" = "a-template.yaml" :=
    strReplace_eval _ _ (by simp [pkgC, tplC, pyReplace, leadsWith])
  have h1 : normalizeTemplates ["a-packaged.yaml", "b-packaged.yaml"] =
      ["b-packaged.yaml", "a-template.yaml"] := by
    unfold normalizeTemplates
    rw [normLoop_step_mark _ 0 (by simp) (by decide)]
    show normLoop (["a-packaged.yaml", "b-packaged.yaml"].erase "a-packaged.yaml" ++
      [strReplace "a-packaged.yaml" "packaged" "template"]) 1 = _
    rw [show (["a-packaged.yaml", "b-packaged.yaml"] : List String).erase "a-packaged.yaml"
      = ["b-packaged.yaml"] from by decide, hrep]
    rw [normLoop_step_skip _ 1 (by simp) (by decide)]
    exact normLoop_stop _ 2 (by simp)
  exact ⟨h1, by rw [h1]; exact List.mem_cons_self _ _, by decide⟩

/-- C2 as amended: when at most one entry of the input carries the
`"packaged"` marker, the normalized sequence is marker-free. -/
theorem claim2_norm_invariant (lst : List String)
    (h : lst.countP (fun t => subOccurs "packaged" t) ≤ 1) :
    ∀ x ∈ normalizeTemplates lst, subOccurs "packaged" x = false := by
  refine normLoop_free lst 0 ?_ ?_
  · intro x hx
    simp at hx
  · simpa using h

theorem claim2_norm_invariant_witness :
    (["one-packaged.yaml", "plain.yaml"].countP (fun t => subOccurs "packaged" t) ≤ 1) ∧
    ∀ x ∈ normalizeTemplates ["one-packaged.yaml", "plain.yaml"],
      subOccurs "packaged" x = false :=
  ⟨by decide, claim2_norm_invariant _ (by decide)⟩

/-- C6: a failed pipeline lookup prints the diagnostic naming the pipeline
and the region, surfaces no error value for the not-found condition, and the
very next access to the never-assigned `pipeline_definition` faults; the
fault propagates out of `launch`. -/
theorem claim6_lookup_fault (E : Env) (p r : String) (hlk : E.lookup = none) :
    fetch_pipeline_definition E.lookup p r =
      ([Ev.getPipeline p r, Ev.print (notFoundMsg p r)], Except.error unboundErr) ∧
    Ev.print (notFoundMsg p r) ∈ (launch E p r).1 ∧
    (launch E p r).2 = Outcome.fault unboundErr := by
  refine ⟨by rw [hlk]; rfl, ?_, ?_⟩
  · rw [launch_fault E p r hlk]
    simp
  · rw [launch_fault E p r hlk]

/-- A throwaway environment with no pipeline. -/
def envNoPipeline : Env :=
  { lookup := none, lint := fun _ => .ok "[]", validate := fun _ => ValBeh.ok,
    nag := fun _ => NagRes.clean "" }

theorem claim6_lookup_fault_witness :
    (launch envNoPipeline "pipe" "us-west-2").2 = Outcome.fault unboundErr :=
  (claim6_lookup_fault envNoPipeline "pipe" "us-west-2" rfl).2.2

/-- C7: with either required flag missing, the main block runs nothing: the
trace is empty (no lookup, no API call, no scan, no print) and the process
exits 0. -/
theorem claim7_missing_args (E : Env) (pArg rArg : Option String)
    (h : pArg = none ∨ rArg = none) :
    mainEntry E pArg rArg = ([], Outcome.exit 0) := by
  rcases h with rfl | rfl
  · simp [mainEntry, pyTruthy]
  · simp [mainEntry, pyTruthy]

theorem claim7_missing_args_witness :
    mainEntry envNoPipeline none (some "us-west-2") = ([], Outcome.exit 0) :=
  claim7_missing_args envNoPipeline none (some "us-west-2") (Or.inl rfl)

/-- C10: a non-zero cfn_nag exit whose captured output contains
`"Failures count: 0"` produces no print at all for that template — only
debug log records — and the loop silently moves on to the next template. -/
theorem claim10_marker_silent (beh : String → NagRes) (t : String) (rest : List String)
    (rc : Nat) (out : String) (hb : beh t = NagRes.failed rc out)
    (hmk : subOccurs failuresZeroMarker out = true) :
    run_command (NagRes.failed rc out) t =
      CmdOut.normal [Ev.logDebug (execMsg t), Ev.scan t, Ev.logDebug (cmdFailedMsg rc out)] ∧
    (∀ s, Ev.print s ∉
      [Ev.logDebug (execMsg t), Ev.scan t, Ev.logDebug (cmdFailedMsg rc out)]) ∧
    cfn_nag_checker beh (t :: rest) =
      ([Ev.logDebug (execMsg t), Ev.scan t, Ev.logDebug (cmdFailedMsg rc out)] ++
        (cfn_nag_checker beh rest).1, (cfn_nag_checker beh rest).2) := by
  have hrun := run_command_marker_silent rc out t hmk
  refine ⟨hrun, ?_, ?_⟩
  · intro s hs
    simp at hs
  · rw [cfn_nag_checker, hb, hrun]

theorem claim10_marker_silent_witness :
    subOccurs failuresZeroMarker "WARN W58\nFailures count: 0\n" = true ∧
    run_command (NagRes.failed 3 "WARN W58\nFailures count: 0\n") "t.yaml" =
      CmdOut.normal [Ev.logDebug (execMsg "t.yaml"), Ev.scan "t.yaml",
        Ev.logDebug (cmdFailedMsg 3 "WARN W58\nFailures count: 0\n")] :=
  ⟨by decide,
    (claim10_marker_silent (fun _ => NagRes.failed 3 "WARN W58\nFailures count: 0\n")
      "t.yaml" [] 3 _ rfl (by decide)).1⟩

/-- C3: under well-formed template-path fields, the collection pass walks
every stage and, within each stage, every action, appending exactly the
substring after `"::"` for each action that carries the field, in
first-seen order across stages then actions. -/
theorem claim3_resolver_paths (p : CpPipeline)
    (h : ∀ st ∈ p.stages, ∀ a ∈ st.actions, ∀ tp, a.templatePath = some tp →
      wellFormedTP tp) :
    collectStages p.stages =
      Except.ok (p.stages.flatMap
        (fun st => st.actions.filterMap (fun a => a.templatePath.map specRelPath))) :=
  collectStages_wf p.stages h

/-- A two-stage pipeline used to witness the resolver claim. -/
def pipelineC3 : CpPipeline :=
  ⟨[⟨[⟨some "Build::out/app.yaml"⟩, ⟨none⟩]⟩, ⟨[⟨some "Pkg::nested/stack.yaml"⟩]⟩]⟩

theorem claim3_resolver_paths_witness :
    collectStages pipelineC3.stages =
      Except.ok (pipelineC3.stages.flatMap
        (fun st => st.actions.filterMap (fun a => a.templatePath.map specRelPath))) ∧
    pipelineC3.stages.flatMap
        (fun st => st.actions.filterMap (fun a => a.templatePath.map specRelPath)) =
      ["out/app.yaml", "nested/stack.yaml"] := by
  constructor
  · refine claim3_resolver_paths pipelineC3 ?_
    intro st hst a ha tp htp
    fin_cases hst
    · fin_cases ha
      · injection htp with htp2
        subst htp2
        exact ⟨"Build", "out/app.yaml", by decide, by decide, by decide⟩
      · cases htp
    · fin_cases ha
      · injection htp with htp2
        subst htp2
        exact ⟨"Pkg", "nested/stack.yaml", by decide, by decide, by decide⟩
  · decide

/-- C4: a single path carrying `"packaged"` once is rewritten with the marker
replaced by `"template"`, a marker-free path is left unchanged, and the
end-to-end scenario with `"Artifact::templates/a.yaml"` and
`"Artifact::templates/packaged.yaml"` resolves and normalizes to exactly
`["templates/a.yaml", "templates/template.yaml"]`. -/
theorem claim4_normalization :
    (∀ A B : List Char, occursIn pkgC A = false → occursIn pkgC B = false →
      normalizeTemplates [String.mk (A ++ pkgC ++ B)] = [String.mk (A ++ tplC ++ B)]) ∧
    (∀ t : String, subOccurs "packaged" t = false → normalizeTemplates [t] = [t]) ∧
    fetch_pipeline_definition
      (some ⟨[⟨[⟨some "Artifact::templates/a.yaml"⟩,
        ⟨some "Artifact::templates/packaged.yaml"⟩]⟩]⟩) "pipe" "us-west-2" =
      ([Ev.getPipeline "pipe" "us-west-2"],
        Except.ok ["templates/a.yaml", "templates/template.yaml"]) := by
  refine ⟨?_, ?_, ?_⟩
  · intro A B hA hB
    have hocc : subOccurs "packaged" (String.mk (A ++ pkgC ++ B)) = true :=
      (occursIn_iff pkgC (A ++ pkgC ++ B)).mpr ⟨A, B, rfl⟩
    unfold normalizeTemplates
    rw [normLoop_step_mark [String.mk (A ++ pkgC ++ B)] 0 (by simp) hocc]
    show normLoop ([String.mk (A ++ pkgC ++ B)].erase (String.mk (A ++ pkgC ++ B)) ++
      [strReplace (String.mk (A ++ pkgC ++ B)) "packaged" "template"]) 1 = _
    rw [List.erase_cons_head]
    have hx : strReplace (String.mk (A ++ pkgC ++ B)) "packaged" "template" =
        String.mk (A ++ tplC ++ B) := by
      refine strReplace_eval _ _ ?_
      show pyReplace pkgC tplC (A ++ pkgC ++ B) = A ++ tplC ++ B
      rw [pyReplace_first A B hA, pyReplace_of_no_occ pkgC tplC pkgC_ne_nil B hB]
    rw [hx]
    exact normLoop_stop _ 1 (by simp)
  · intro t ht
    unfold normalizeTemplates
    rw [normLoop_step_skip [t] 0 (by simp) ht]
    exact normLoop_stop _ 1 (by simp)
  · have e1 : extractTemplate "Artifact::templates/a.yaml" = some "templates/a.yaml" := by
      rw [show ("Artifact::templates/a.yaml" : String) =
        "Artifact" ++ "::" ++ "templates/a.yaml" from by decide]
      exact extractTemplate_concat "Artifact" "templates/a.yaml" (by decide) (by decide)
    have e2 : extractTemplate "Artifact::templates/packaged.yaml" =
        some "templates/packaged.yaml" := by
      rw [show ("Artifact::templates/packaged.yaml" : String) =
        "Artifact" ++ "::" ++ "templates/packaged.yaml" from by decide]
      exact extractTemplate_concat "Artifact" "templates/packaged.yaml"
        (by decide) (by decide)
    have hcoll : collectStages
        [⟨[⟨some "Artifact::templates/a.yaml"⟩, ⟨some "Artifact::templates/packaged.yaml"⟩]⟩] =
        Except.ok ["templates/a.yaml", "templates/packaged.yaml"] := by
      simp [collectStages, collectActions, e1, e2, Except.map, Bind.bind, Except.bind]
    have hrep : strReplace "templates/packaged.yaml" "packaged" "template" =
        "templates/template.yaml" :=
      strReplace_eval _ _ (by simp [pkgC, tplC, pyReplace, leadsWith])
    have hnorm : normalizeTemplates ["templates/a.yaml", "templates/packaged.yaml"] =
        ["templates/a.yaml", "templates/template.yaml"] := by
      unfold normalizeTemplates
      rw [normLoop_step_skip _ 0 (by simp) (by decide)]
      rw [normLoop_step_mark _ 1 (by simp) (by decide)]
      show normLoop
        ((["templates/a.yaml", "templates/packaged.yaml"] : List String).erase
          "templates/packaged.yaml" ++
          [strReplace "templates/packaged.yaml" "packaged" "template"]) 2 = _
      rw [show (["templates/a.yaml", "templates/packaged.yaml"] : List String).erase
        "templates/packaged.yaml" = ["templates/a.yaml"] from by decide, hrep]
      exact normLoop_stop _ 2 (by simp)
    rw [fetch_pipeline_definition, hcoll]
    show ([Ev.getPipeline "pipe" "us-west-2"],
      Except.ok (normalizeTemplates ["templates/a.yaml", "templates/packaged.yaml"])) = _
    rw [hnorm]

theorem claim4_normalization_witness :
    (occursIn pkgC "dir/".data = false ∧ occursIn pkgC ".yaml".data = false ∧
      normalizeTemplates [String.mk ("dir/".data ++ pkgC ++ ".yaml".data)] =
        [String.mk ("dir/".data ++ tplC ++ ".yaml".data)]) ∧
    (subOccurs "packaged" "plain.yaml" = false ∧
      normalizeTemplates ["plain.yaml"] = ["plain.yaml"]) :=
  ⟨⟨by decide, by decide,
    claim4_normalization.1 "dir/".data ".yaml".data (by decide) (by decide)⟩,
    ⟨by decide, claim4_normalization.2.1 "plain.yaml" (by decide)⟩⟩

/-! ## Composition lemmas for the cfn_nag loop -/

theorem cfn_nag_cons_normal (beh : String → NagRes) (t : String) (rest : List String)
    (evs : List Ev) (h : run_command (beh t) t = CmdOut.normal evs) :
    cfn_nag_checker beh (t :: rest) =
      (evs ++ (cfn_nag_checker beh rest).1, (cfn_nag_checker beh rest).2) := by
  rw [cfn_nag_checker, h]

theorem cfn_nag_cons_exit (beh : String → NagRes) (t : String) (rest : List String)
    (evs : List Ev) (h : run_command (beh t) t = CmdOut.exitOne evs) :
    cfn_nag_checker beh (t :: rest) = (evs, true) := by
  rw [cfn_nag_checker, h]

theorem cfn_nag_cons_thrown (beh : String → NagRes) (t : String) (rest : List String)
    (evs : List Ev) (ex : String) (h : run_command (beh t) t = CmdOut.thrown evs ex) :
    cfn_nag_checker beh (t :: rest) =
      (evs ++ [Ev.print (issueMsg t ex), Ev.print tracebackHeader, Ev.traceback], false) := by
  rw [cfn_nag_checker, h]

theorem nag_events_only (beh : String → NagRes) :
    ∀ ts : List String, ∀ e ∈ (cfn_nag_checker beh ts).1,
      isLintEv e = false ∧ isValidateEv e = false := by
  intro ts
  induction ts with
  | nil => intro e he; cases he
  | cons t rest ih =>
    intro e he
    cases hr : run_command (beh t) t with
    | normal evs =>
      rw [cfn_nag_cons_normal beh t rest evs hr] at he
      rcases List.mem_append.mp he with h1 | h1
      · exact (run_command_events_only (beh t) t e).1 evs hr h1
      · exact ih e h1
    | exitOne evs =>
      rw [cfn_nag_cons_exit beh t rest evs hr] at he
      exact (run_command_events_only (beh t) t e).2.1 evs hr he
    | thrown evs ex =>
      rw [cfn_nag_cons_thrown beh t rest evs ex hr] at he
      rcases List.mem_append.mp he with h1 | h1
      · exact (run_command_events_only (beh t) t e).2.2 evs ex hr h1
      · fin_cases h1 <;> exact ⟨rfl, rfl⟩

/-- C8: the orchestrator prints the resolved list up front and a banner
before each stage, in the order lint, then live validation, then security
scan, and each stage block contains only events of its own stage. -/
theorem claim8_stage_order (E : Env) (p r : String) (pl : CpPipeline) (ts0 : List String)
    (hlk : E.lookup = some pl) (hcs : collectStages pl.stages = Except.ok ts0) :
    (launch E p r).1 =
      Ev.print listHeader :: Ev.getPipeline p r ::
        ((normalizeTemplates ts0).map Ev.print ++
          Ev.print lintBanner :: cfn_lint_checker E.lint (normalizeTemplates ts0) r ++
          Ev.print valBanner :: cfn_validator E.validate (normalizeTemplates ts0) ++
          Ev.print nagBanner :: (cfn_nag_checker E.nag (normalizeTemplates ts0)).1) ∧
    (∀ e ∈ cfn_lint_checker E.lint (normalizeTemplates ts0) r,
      isValidateEv e = false ∧ isScanEv e = false) ∧
    (∀ e ∈ cfn_validator E.validate (normalizeTemplates ts0),
      isLintEv e = false ∧ isScanEv e = false) ∧
    (∀ e ∈ (cfn_nag_checker E.nag (normalizeTemplates ts0)).1,
      isLintEv e = false ∧ isValidateEv e = false) := by
  refine ⟨?_, lint_events_only E.lint _ r, validator_events_only E.validate _,
    nag_events_only E.nag _⟩
  rw [launch_ok E p r pl ts0 hlk hcs]

/-- C5: in the lint pass and in the live-validation pass an exception on
template K is caught at loop level with the issue message naming K and a
traceback, templates after K in that stage are not processed, and the
program still runs the later stages and exits 0 (when the security scan
itself is clean). -/
theorem claim5_stage_failure_isolation :
    (∀ (beh : String → Except String String) (mf : String → String) (region : String)
        (pre post : List String) (t e : String),
      (∀ u ∈ pre, beh u = .ok (mf u)) → beh t = .error e →
      cfn_lint_checker beh (pre ++ t :: post) region =
        pre.flatMap (fun u => [Ev.lintRun u, Ev.print (lintFoundMsg u), Ev.print (mf u)]) ++
          [Ev.lintRun t, Ev.print (issueMsg t e), Ev.print tracebackHeader, Ev.traceback] ∧
      (∀ u, Ev.lintRun u ∈ cfn_lint_checker beh (pre ++ t :: post) region →
        u ∈ pre ∨ u = t)) ∧
    (∀ (beh : String → ValBeh) (pre post : List String) (t e : String),
      (∀ u ∈ pre, beh u = ValBeh.ok) →
      (beh t = ValBeh.readFail e ∨ beh t = ValBeh.apiFail e) →
      Ev.print (issueMsg t e) ∈ cfn_validator beh (pre ++ t :: post) ∧
      Ev.traceback ∈ cfn_validator beh (pre ++ t :: post) ∧
      (∀ u, Ev.validateCall u ∈ cfn_validator beh (pre ++ t :: post) →
        u ∈ pre ∨ u = t)) ∧
    (∀ (E : Env) (p r : String) (pl : CpPipeline) (ts0 : List String),
      E.lookup = some pl → collectStages pl.stages = Except.ok ts0 →
      (∀ u ∈ normalizeTemplates ts0, nagContinues (E.nag u) = true) →
      Ev.print valBanner ∈ (launch E p r).1 ∧ Ev.print nagBanner ∈ (launch E p r).1 ∧
      (launch E p r).2 = Outcome.exit 0) := by
  refine ⟨?_, ?_, ?_⟩
  · intro beh mf region pre post t e hpre hbt
    have heq : cfn_lint_checker beh (pre ++ t :: post) region =
        pre.flatMap (fun u => [Ev.lintRun u, Ev.print (lintFoundMsg u), Ev.print (mf u)]) ++
          [Ev.lintRun t, Ev.print (issueMsg t e), Ev.print tracebackHeader, Ev.traceback] := by
      rw [cfn_lint_ok_front beh mf pre (t :: post) region hpre,
        cfn_lint_error_stop beh t post region e hbt]
    refine ⟨heq, ?_⟩
    intro u hu
    rw [heq] at hu
    rcases List.mem_append.mp hu with h1 | h1
    · left
      simp only [List.mem_flatMap, List.mem_cons, List.not_mem_nil, or_false] at h1
      obtain ⟨a, ha, hcase⟩ := h1
      have hua : u = a := by simpa using hcase
      rw [hua]
      exact ha
    · right
      simpa using h1
  · intro beh pre post t e hpre hfail
    have hmemflat : ∀ u, Ev.validateCall u ∈
        pre.flatMap (fun v => [Ev.print (validatingMsg v), Ev.validateCall v]) → u ∈ pre := by
      intro u hu
      simp only [List.mem_flatMap, List.mem_cons, List.not_mem_nil, or_false] at hu
      obtain ⟨a, ha, hcase⟩ := hu
      rcases hcase with hc | hc
      · cases hc
      · injection hc with hc2
        rw [hc2]
        exact ha
    rcases hfail with hb | hb
    · have heq : cfn_validator beh (pre ++ t :: post) =
          pre.flatMap (fun v => [Ev.print (validatingMsg v), Ev.validateCall v]) ++
            [Ev.print (issueMsg t e), Ev.print tracebackHeader, Ev.traceback] := by
        rw [cfn_validator_ok_front beh pre (t :: post) hpre,
          cfn_validator_read_stop beh t post e hb]
      rw [heq]
      refine ⟨List.mem_append_right _ (by simp), List.mem_append_right _ (by simp), ?_⟩
      intro u hu
      rcases List.mem_append.mp hu with h1 | h1
      · exact Or.inl (hmemflat u h1)
      · simp at h1
    · have heq : cfn_validator beh (pre ++ t :: post) =
          pre.flatMap (fun v => [Ev.print (validatingMsg v), Ev.validateCall v]) ++
            [Ev.print (validatingMsg t), Ev.validateCall t, Ev.print (issueMsg t e),
              Ev.print tracebackHeader, Ev.traceback] := by
        rw [cfn_validator_ok_front beh pre (t :: post) hpre,
          cfn_validator_api_stop beh t post e hb]
      rw [heq]
      refine ⟨List.mem_append_right _ (by simp), List.mem_append_right _ (by simp), ?_⟩
      intro u hu
      rcases List.mem_append.mp hu with h1 | h1
      · exact Or.inl (hmemflat u h1)
      · right
        simpa using h1
  · intro E p r pl ts0 hlk hcs hall
    have hnag := cfn_nag_all_continue E.nag _ hall
    rw [launch_ok E p r pl ts0 hlk hcs]
    refine ⟨?_, ?_, ?_⟩
    · simp
    · simp
    · simp [hnag.1]

/-- C1 as amended: a non-zero cfn_nag exit with NON-EMPTY captured output
missing the `"Failures count: 0"` marker prints the failure message naming
the template and exits the whole process with code 1, scanning no later
template; when every subprocess outcome lets the loop continue (in
particular a non-zero exit whose output carries the marker), the process
exits 0.  (The empty-output case, which the claim as stated also covers,
instead takes the falsy `if err:` branch: see the counterexample.) -/
theorem claim1_security_gate :
    (∀ (E : Env) (p r : String) (pl : CpPipeline) (ts0 pre post : List String)
        (t : String) (rc : Nat) (out : String),
      E.lookup = some pl → collectStages pl.stages = Except.ok ts0 →
      normalizeTemplates ts0 = pre ++ t :: post →
      (∀ u ∈ pre, nagContinues (E.nag u) = true) →
      E.nag t = NagRes.failed rc out → out ≠ "" →
      subOccurs failuresZeroMarker out = false →
      (launch E p r).2 = Outcome.exit 1 ∧
      Ev.print (nagFailuresMsg t out) ∈ (launch E p r).1 ∧
      (launch E p r).1.filter isScanEv = (pre ++ [t]).map Ev.scan) ∧
    (∀ (E : Env) (p r : String) (pl : CpPipeline) (ts0 : List String),
      E.lookup = some pl → collectStages pl.stages = Except.ok ts0 →
      (∀ u ∈ normalizeTemplates ts0, nagContinues (E.nag u) = true) →
      (launch E p r).2 = Outcome.exit 0) := by
  constructor
  · intro E p r pl ts0 pre post t rc out hlk hcs hsplit hpre hbt hne hmk
    have hnag := cfn_nag_exit E.nag pre t post rc out hpre hbt hne hmk
    have hlaunch := launch_ok E p r pl ts0 hlk hcs
    rw [hsplit] at hlaunch
    rw [hlaunch]
    have hmapnil : (((pre ++ t :: post).map Ev.print).filter isScanEv) = [] := by
      refine List.filter_eq_nil_iff.mpr ?_
      intro a ha
      obtain ⟨u, _, rfl⟩ := List.mem_map.mp ha
      simp [isScanEv]
    have hlintnil : ((cfn_lint_checker E.lint (pre ++ t :: post) r).filter isScanEv) = [] := by
      refine List.filter_eq_nil_iff.mpr ?_
      intro a ha
      simp [(lint_events_only E.lint (pre ++ t :: post) r a ha).2]
    have hvalnil : ((cfn_validator E.validate (pre ++ t :: post)).filter isScanEv) = [] := by
      refine List.filter_eq_nil_iff.mpr ?_
      intro a ha
      simp [(validator_events_only E.validate (pre ++ t :: post) a ha).2]
    refine ⟨by simp [hnag.1], ?_, ?_⟩
    · have hmem := hnag.2.2
      simp only [List.mem_cons, List.mem_append]
      tauto
    · simp only [List.filter_cons, List.filter_append, isScanEv, hmapnil, hlintnil,
        hvalnil, hnag.2.1]
      simp
  · intro E p r pl ts0 hlk hcs hall
    have hnag := cfn_nag_all_continue E.nag _ hall
    rw [launch_ok E p r pl ts0 hlk hcs]
    simp [hnag.1]

/-! ## Concrete scenarios -/

/-- A one-template pipeline. -/
def pipelineOne : CpPipeline := ⟨[⟨[⟨some "Art::w.yaml"⟩]⟩]⟩

/-- A two-template pipeline. -/
def pipelineTwo : CpPipeline := ⟨[⟨[⟨some "Art::good.yaml"⟩, ⟨some "Art::bad.yaml"⟩]⟩]⟩

theorem collect_pipelineOne : collectStages pipelineOne.stages = Except.ok ["w.yaml"] := by
  have e1 : extractTemplate "Art::w.yaml" = some "w.yaml" := by
    rw [show ("Art::w.yaml" : String) = "Art" ++ "::" ++ "w.yaml" from by decide]
    exact extractTemplate_concat "Art" "w.yaml" (by decide) (by decide)
  simp [pipelineOne, collectStages, collectActions, e1, Except.map, Bind.bind, Except.bind]

theorem collect_pipelineTwo :
    collectStages pipelineTwo.stages = Except.ok ["good.yaml", "bad.yaml"] := by
  have e1 : extractTemplate "Art::good.yaml" = some "good.yaml" := by
    rw [show ("Art::good.yaml" : String) = "Art" ++ "::" ++ "good.yaml" from by decide]
    exact extractTemplate_concat "Art" "good.yaml" (by decide) (by decide)
  have e2 : extractTemplate "Art::bad.yaml" = some "bad.yaml" := by
    rw [show ("Art::bad.yaml" : String) = "Art" ++ "::" ++ "bad.yaml" from by decide]
    exact extractTemplate_concat "Art" "bad.yaml" (by decide) (by decide)
  simp [pipelineTwo, collectStages, collectActions, e1, e2, Except.map, Bind.bind, Except.bind]

theorem norm_one : normalizeTemplates ["w.yaml"] = ["w.yaml"] :=
  normLoop_clean ["w.yaml"] 0 (by decide)

theorem norm_two :
    normalizeTemplates ["good.yaml", "bad.yaml"] = ["good.yaml", "bad.yaml"] :=
  normLoop_clean ["good.yaml", "bad.yaml"] 0 (by decide)

/-- Environment whose only template scans with a non-zero exit and EMPTY
captured output. -/
def envEmptyFail : Env :=
  { lookup := some pipelineOne, lint := fun _ => .ok "[]",
    validate := fun _ => ValBeh.ok, nag := fun _ => NagRes.failed 2 "" }

/-- Environment whose second template scans with a marker-free failure. -/
def envOneBad : Env :=
  { lookup := some pipelineTwo, lint := fun _ => .ok "[]",
    validate := fun _ => ValBeh.ok,
    nag := fun u =>
      if u = "bad.yaml" then NagRes.failed 1 "Failures count: 2" else NagRes.clean "ok" }

/-- Environment whose only template scans with a non-zero exit whose output
carries the zero-failures marker. -/
def envMarker : Env :=
  { lookup := some pipelineOne, lint := fun _ => .ok "[]",
    validate := fun _ => ValBeh.ok,
    nag := fun _ => NagRes.failed 7 "All good\nFailures count: 0\n" }

/-- Environment where everything succeeds. -/
def envOk : Env :=
  { lookup := some pipelineOne, lint := fun _ => .ok "[]",
    validate := fun _ => ValBeh.ok, nag := fun _ => NagRes.clean "ok" }

/-- C1 counterexample: a security-scan subprocess exits non-zero with EMPTY
captured output, which does not contain `"Failures count: 0"`; yet the falsy
`if err:` branch prints no failure message and the process exits 0, against
the claim as stated. -/
theorem claim1_counterexample :
    envEmptyFail.nag "w.yaml" = NagRes.failed 2 "" ∧
    subOccurs failuresZeroMarker "" = false ∧
    (launch envEmptyFail "pipe" "us-west-2").2 = Outcome.exit 0 ∧
    Ev.print (nagFailuresMsg "w.yaml" "") ∉ (launch envEmptyFail "pipe" "us-west-2").1 := by
  have hlaunch := launch_ok envEmptyFail "pipe" "us-west-2" pipelineOne ["w.yaml"] rfl
    collect_pipelineOne
  rw [norm_one] at hlaunch
  refine ⟨rfl, by decide, ?_, ?_⟩
  · rw [hlaunch]
    decide
  · rw [hlaunch]
    decide

theorem claim1_security_gate_witness :
    (launch envOneBad "pipe" "us-west-2").2 = Outcome.exit 1 ∧
    (launch envMarker "pipe" "us-west-2").2 = Outcome.exit 0 := by
  constructor
  · exact (claim1_security_gate.1 envOneBad "pipe" "us-west-2" pipelineTwo
      ["good.yaml", "bad.yaml"] ["good.yaml"] [] "bad.yaml" 1 "Failures count: 2"
      rfl collect_pipelineTwo norm_two (by decide) (by decide) (by decide) (by decide)).1
  · refine claim1_security_gate.2 envMarker "pipe" "us-west-2" pipelineOne ["w.yaml"]
      rfl collect_pipelineOne ?_
    intro u hu
    rw [norm_one] at hu
    fin_cases hu
    decide

/-- Lint oracle for the C5 witness: one template fails. -/
def lintBehW : String → Except String String :=
  fun u => if u = "bad.yaml" then Except.error "boom" else Except.ok "[]"

theorem claim5_stage_failure_isolation_witness :
    (∀ u ∈ (["ok.yaml"] : List String), lintBehW u = Except.ok "[]") ∧
    lintBehW "bad.yaml" = Except.error "boom" ∧
    cfn_lint_checker lintBehW (["ok.yaml"] ++ "bad.yaml" :: ["never.yaml"]) "us-west-2" =
      (["ok.yaml"] : List String).flatMap
        (fun u => [Ev.lintRun u, Ev.print (lintFoundMsg u), Ev.print "[]"]) ++
        [Ev.lintRun "bad.yaml", Ev.print (issueMsg "bad.yaml" "boom"),
          Ev.print tracebackHeader, Ev.traceback] := by
  refine ⟨?_, by simp [lintBehW], ?_⟩
  · intro u hu
    fin_cases hu
    simp [lintBehW]
  · exact (claim5_stage_failure_isolation.1 lintBehW (fun _ => "[]") "us-west-2"
      ["ok.yaml"] ["never.yaml"] "bad.yaml" "boom"
      (by intro u hu; fin_cases hu; simp [lintBehW]) (by simp [lintBehW])).1

theorem claim8_stage_order_witness :
    (launch envOk "pipe" "us-west-2").1 =
      Ev.print listHeader :: Ev.getPipeline "pipe" "us-west-2" ::
        ((normalizeTemplates ["w.yaml"]).map Ev.print ++
          Ev.print lintBanner ::
            cfn_lint_checker envOk.lint (normalizeTemplates ["w.yaml"]) "us-west-2" ++
          Ev.print valBanner :: cfn_validator envOk.validate (normalizeTemplates ["w.yaml"]) ++
          Ev.print nagBanner ::
            (cfn_nag_checker envOk.nag (normalizeTemplates ["w.yaml"])).1) :=
  (claim8_stage_order envOk "pipe" "us-west-2" pipelineOne ["w.yaml"] rfl
    collect_pipelineOne).1
